import Mathlib

/-!
Verification development for the diagram2code evaluation core.

This file shallowly embeds the evaluation engine of the repository:

* `diagram2code/benchmark/matching.py` (`match_nodes_center_distance`,
  `project_pred_edges_to_gt`),
* `diagram2code/benchmark/metrics.py` (`compute_direction_accuracy`,
  `compute_exact_match`),
* `diagram2code/benchmark/serialize.py` / `result_schema.py` (the shape of the
  result record),
* `diagram2code/benchmark/runner.py` (`_edge_to_dict`),
* `diagram2code/datasets/validation.py` (`validate_graph_json`,
  `validate_dataset_metadata`) and `diagram2code/datasets/loader.py`
  (`load_dataset`).

Modelling conventions:

* Python floats are modelled as rationals (`ℚ`).  The source compares
  Euclidean distances (`math.hypot`) against `alpha * diag`; since all the
  quantities under the square roots are nonnegative and the square root is
  strictly monotone on nonnegative reals, both the threshold test
  `hypot dx dy <= alpha * hypot w h` and the sort-by-distance order are
  represented exactly by the squared quantities (`dx^2 + dy^2 <=
  alpha^2 * (w^2 + h^2)` for `alpha > 0`).  Candidate tuples therefore carry
  the squared distance in their first component.
* Python dicts are modelled as association lists in insertion order;
  assigning to an existing key keeps its position and replaces the value
  (`pyUpsert`), exactly like CPython dicts.  Python sets of pairs are
  modelled as `Finset`s.
* Exceptions are modelled by `Except String`; the string is the message the
  source passes to the raised exception (quote characters are omitted from
  message literals).
-/

namespace Diagram2Code

/-- A bounding box `(x, y, w, h)` in pixel coordinates (`bbox` lists in the
JSON graphs), floats modelled as rationals. -/
structure Bbox where
  x : ℚ
  y : ℚ
  w : ℚ
  h : ℚ
deriving DecidableEq, Repr

/-- A node dict as consumed by `match_nodes_center_distance`: the code only
reads the keys `id` (already passed through `str`) and `bbox`; a missing key
is modelled by `none`. -/
structure NodeDict where
  id : Option String
  bbox : Option Bbox
deriving DecidableEq, Repr

/-- Center of a bbox, from `_bbox_center_and_diag`:
`cx = x + w / 2`, `cy = y + h / 2`. -/
def center (b : Bbox) : ℚ × ℚ :=
  (b.x + b.w / 2, b.y + b.h / 2)

/-- Squared diagonal of a bbox: `hypot w h` squared, i.e. `w^2 + h^2`
(see the modelling note on squared distances at the top of the file). -/
def diag2 (b : Bbox) : ℚ :=
  b.w ^ 2 + b.h ^ 2

/-- Squared Euclidean distance between two points (`hypot (px - gx) (py - gy)`
squared). -/
def dist2 (p q : ℚ × ℚ) : ℚ :=
  (p.1 - q.1) ^ 2 + (p.2 - q.2) ^ 2

/-- A candidate match tuple `(distance, pred_id, gt_id)`; the distance is
carried squared. -/
structure Cand where
  d2 : ℚ
  pid : String
  gid : String
deriving DecidableEq, Repr

/-- String comparison decided on the character list (Python compares
strings lexicographically by code point; this instance lets the kernel
evaluate the comparison, which the byte-iterator-based default cannot). -/
instance (priority := 2000) fastStringLtDecidable :
    ∀ a b : String, Decidable (a < b) :=
  fun a b => decidable_of_iff (a.toList < b.toList) String.lt_iff_toList_lt.symm

/-- Companion kernel-evaluable instance for the non-strict string order. -/
instance (priority := 2000) fastStringLeDecidable :
    ∀ a b : String, Decidable (a ≤ b) :=
  fun a b => decidable_of_iff (a.toList ≤ b.toList) String.le_iff_toList_le.symm

/-- The candidate ordering used for `candidates.sort`: Python sorts the
candidate list by the tuple `(t[0], t[1], t[2])`, i.e. lexicographically by
distance, then predicted id, then ground-truth id. -/
def candLE (a b : Cand) : Prop :=
  a.d2 < b.d2 ∨ (a.d2 = b.d2 ∧
    (a.pid < b.pid ∨ (a.pid = b.pid ∧ (a.gid < b.gid ∨ a.gid = b.gid))))

instance : DecidableRel candLE := fun a b => by
  unfold candLE
  infer_instance

instance : IsRefl Cand candLE :=
  ⟨fun _ => Or.inr ⟨rfl, Or.inr ⟨rfl, Or.inr rfl⟩⟩⟩

instance : IsTotal Cand candLE :=
  ⟨fun a b => by
    rcases lt_trichotomy a.d2 b.d2 with h | h | h
    · exact Or.inl (Or.inl h)
    · rcases lt_trichotomy a.pid b.pid with h2 | h2 | h2
      · exact Or.inl (Or.inr ⟨h, Or.inl h2⟩)
      · rcases lt_trichotomy a.gid b.gid with h3 | h3 | h3
        · exact Or.inl (Or.inr ⟨h, Or.inr ⟨h2, Or.inl h3⟩⟩)
        · exact Or.inl (Or.inr ⟨h, Or.inr ⟨h2, Or.inr h3⟩⟩)
        · exact Or.inr (Or.inr ⟨h.symm, Or.inr ⟨h2.symm, Or.inl h3⟩⟩)
      · exact Or.inr (Or.inr ⟨h.symm, Or.inl h2⟩)
    · exact Or.inr (Or.inl h)⟩

instance : IsTrans Cand candLE :=
  ⟨fun a b c hab hbc => by
    rcases hab with h1 | ⟨he1, h2⟩
    · rcases hbc with g1 | ⟨ge1, _⟩
      · exact Or.inl (lt_trans h1 g1)
      · exact Or.inl (h1.trans_eq ge1)
    · rcases hbc with g1 | ⟨ge1, g2⟩
      · exact Or.inl (he1.trans_lt g1)
      · refine Or.inr ⟨he1.trans ge1, ?_⟩
        rcases h2 with h3 | ⟨he3, h4⟩
        · rcases g2 with g3 | ⟨ge3, _⟩
          · exact Or.inl (lt_trans h3 g3)
          · exact Or.inl (h3.trans_eq ge3)
        · rcases g2 with g3 | ⟨ge3, g4⟩
          · exact Or.inl (he3.trans_lt g3)
          · refine Or.inr ⟨he3.trans ge3, ?_⟩
            rcases h4 with h5 | h5 <;> rcases g4 with g5 | g5
            · exact Or.inl (lt_trans h5 g5)
            · exact Or.inl (h5.trans_eq g5)
            · exact Or.inl (h5.trans_lt g5)
            · exact Or.inr (h5.trans g5)⟩

instance : IsAntisymm Cand candLE :=
  ⟨fun a b hab hba => by
    have hd : a.d2 = b.d2 := by
      rcases hab with h | ⟨h, _⟩
      · rcases hba with g | ⟨g, _⟩
        · exact absurd g (lt_asymm h)
        · exact g.symm
      · exact h
    have hab2 := hab.resolve_left (fun h => absurd hd (ne_of_lt h))
    have hba2 := hba.resolve_left (fun h => absurd hd.symm (ne_of_lt h))
    have hp : a.pid = b.pid := by
      rcases hab2.2 with h | ⟨h, _⟩
      · rcases hba2.2 with g | ⟨g, _⟩
        · exact absurd g (lt_asymm h)
        · exact g.symm
      · exact h
    have hab3 := hab2.2.resolve_left (fun h => absurd hp (ne_of_lt h))
    have hba3 := hba2.2.resolve_left (fun h => absurd hp.symm (ne_of_lt h))
    have hg : a.gid = b.gid := by
      rcases hab3.2 with h | h
      · rcases hba3.2 with g | g
        · exact absurd g (lt_asymm h)
        · exact g.symm
      · exact h
    cases a; cases b
    simp_all⟩

/-- CPython dict assignment `d[k] = v` as an association-list operation:
if `k` is already a key its value is replaced in place, otherwise the pair
is appended. -/
def pyUpsert {α : Type} (l : List (String × α)) (k : String) (v : α) :
    List (String × α) :=
  match l with
  | [] => [(k, v)]
  | (k2, v2) :: t => if k2 = k then (k, v) :: t else (k2, v2) :: pyUpsert t k v

/-- One iteration of a node loop of `match_nodes_center_distance`: fail with
`err` on a node missing `id` or `bbox`, otherwise store `f bbox` under
`str(id)` in the dict. -/
def buildStep {α : Type} (err : String) (f : Bbox → α)
    (acc : List (String × α)) (n : NodeDict) :
    Except String (List (String × α)) :=
  match n.id, n.bbox with
  | some i, some b => .ok (pyUpsert acc i (f b))
  | _, _ => .error err

/-- The two node loops of `match_nodes_center_distance` share this shape:
walk the node list, performing `buildStep` on each node. -/
def buildNodeMap {α : Type} (err : String) (f : Bbox → α)
    (nodes : List NodeDict) : Except String (List (String × α)) :=
  nodes.foldlM (buildStep err f) []

/-- The `gt_info` dict: `gt_id -> (center, diag)` (diagonal squared here). -/
def buildGtInfo (gt_nodes : List NodeDict) :
    Except String (List (String × ((ℚ × ℚ) × ℚ))) :=
  buildNodeMap "GT nodes must have id and bbox" (fun b => (center b, diag2 b))
    gt_nodes

/-- The `pred_centers` dict: `pred_id -> center`. -/
def buildPredCenters (pred_nodes : List NodeDict) :
    Except String (List (String × (ℚ × ℚ))) :=
  buildNodeMap "Pred nodes must have id and bbox" center pred_nodes

/-- The candidate loop: for every `pid` in `pred_centers` and every `gid` in
`gt_info`, keep `(d, pid, gid)` when `d <= alpha * gdiag`, i.e. (squared)
`d2 <= alpha^2 * gdiag2`. -/
def candidatesOf (preds : List (String × (ℚ × ℚ)))
    (gts : List (String × ((ℚ × ℚ) × ℚ))) (alpha : ℚ) : List Cand :=
  preds.flatMap fun pc =>
    gts.filterMap fun gc =>
      let d2 := dist2 pc.2 gc.2.1
      if d2 ≤ alpha ^ 2 * gc.2.2 then some ⟨d2, pc.1, gc.1⟩ else none

/-- One iteration of the final greedy loop: state is
`(pred_to_gt, used_preds, used_gts)`; a candidate is skipped when its pred or
gt id was already consumed. -/
def greedyStep (st : List (String × String) × List String × List String)
    (c : Cand) : List (String × String) × List String × List String :=
  if c.pid ∈ st.2.1 ∨ c.gid ∈ st.2.2 then st
  else (st.1 ++ [(c.pid, c.gid)], c.pid :: st.2.1, c.gid :: st.2.2)

/-- `match_nodes_center_distance(gt_nodes, pred_nodes, alpha)` from
`benchmark/matching.py`.  Returns the `pred_to_gt` dict as an association
list in insertion order; `MatchingError` is modelled by `.error` with the
raised message. -/
def match_nodes_center_distance (gt_nodes pred_nodes : List NodeDict)
    (alpha : ℚ) : Except String (List (String × String)) :=
  if alpha ≤ 0 then .error "alpha must be > 0"
  else do
    let gtInfo ← buildGtInfo gt_nodes
    let predCenters ← buildPredCenters pred_nodes
    let cands := List.insertionSort candLE (candidatesOf predCenters gtInfo alpha)
    pure (cands.foldl greedyStep ([], [], [])).1

/-- The matching algorithm exactly as the specification words it, as a second
definition to compare against the source embedding: the candidate set ranges
over all pairs of nodes `(p, g)` (given directly as `(id, bbox)` pairs) with
`dist(center p, center g) <= alpha * diag g`; it is sorted ascending by the
triple `(distance, predicted id, ground-truth id)`. -/
def specCandidates (gt_nodes pred_nodes : List (String × Bbox)) (alpha : ℚ) :
    List Cand :=
  pred_nodes.flatMap fun p =>
    gt_nodes.filterMap fun g =>
      let d2 := dist2 (center p.2) (center g.2)
      if d2 ≤ alpha ^ 2 * diag2 g.2 then some ⟨d2, p.1, g.1⟩ else none

/-- The greedy scan exactly as the specification words it: walk the sorted
candidate list, accepting a candidate only if neither its predicted node nor
its ground-truth node was accepted earlier. -/
def specGreedy : List Cand → List String → List String →
    List (String × String)
  | [], _, _ => []
  | c :: rest, usedP, usedG =>
    if c.pid ∈ usedP ∨ c.gid ∈ usedG then specGreedy rest usedP usedG
    else (c.pid, c.gid) :: specGreedy rest (c.pid :: usedP) (c.gid :: usedG)

/-- The alignment produced by the algorithm as the specification describes
it (threshold against the ground-truth diagonal, sort by the triple, greedy
scan). -/
def match_spec (gt_nodes pred_nodes : List (String × Bbox)) (alpha : ℚ) :
    List (String × String) :=
  specGreedy
    (List.insertionSort candLE (specCandidates gt_nodes pred_nodes alpha)) [] []

/-- Remove from a candidate list every candidate with the given predicted
id (proof infrastructure for the greedy scan). -/
def delP (x : String) (l : List Cand) : List Cand :=
  l.filter fun c => decide (c.pid ≠ x)

/-- Remove from a candidate list every candidate with the given
ground-truth id. -/
def delG (y : String) (l : List Cand) : List Cand :=
  l.filter fun c => decide (c.gid ≠ y)

/-- The greedy scan phrased by deletion: accept the head candidate and drop
every later candidate sharing its predicted or ground-truth id.  Equivalent
to `specGreedy` (proved below); the deletion form is what the structural
lemmas about the greedy matching are proved on. -/
def greedyR : List Cand → List (String × String)
  | [] => []
  | c :: rest => (c.pid, c.gid) :: greedyR (delP c.pid (delG c.gid rest))
termination_by l => l.length
decreasing_by
  simp only [delP, delG, List.length_cons]
  exact Nat.lt_succ_of_le
    (le_trans (List.length_filter_le _ _) (List.length_filter_le _ _))

/-- An edge dict as consumed by `project_pred_edges_to_gt`: only the keys
`from` and `to` are read (`from` is a Lean keyword, hence the field names);
a missing key is modelled by `none`. -/
structure EdgeDict where
  fromId : Option String
  toId : Option String
deriving DecidableEq, Repr

/-- `project_pred_edges_to_gt(pred_edges, pred_to_gt)` from
`benchmark/matching.py`: edges missing `from` or `to` raise `MatchingError`;
endpoints are looked up in the alignment with `dict.get`, edges with an
unmatched endpoint are skipped, and the projected pairs are collected into a
set. -/
def project_pred_edges_to_gt (pred_edges : List EdgeDict)
    (pred_to_gt : List (String × String)) :
    Except String (Finset (String × String)) :=
  match pred_edges with
  | [] => .ok ∅
  | e :: rest =>
    match e.fromId, e.toId with
    | some pf, some pt => do
      let out ← project_pred_edges_to_gt rest pred_to_gt
      match pred_to_gt.lookup pf, pred_to_gt.lookup pt with
      | some gf, some gtv => .ok (insert (gf, gtv) out)
      | _, _ => .ok out
    | _, _ => .error "Edges must have from and to"

/-- The set `project_pred_edges_to_gt` returns on well-formed edges, stated
directly: the projected `(gt_source, gt_target)` pairs of the edges whose
endpoints are both matched by the alignment, duplicates collapsed. -/
def projectSpec (pred_edges : List EdgeDict)
    (pred_to_gt : List (String × String)) : Finset (String × String) :=
  (pred_edges.filterMap fun e =>
    e.fromId.bind fun pf =>
      e.toId.bind fun pt =>
        (pred_to_gt.lookup pf).bind fun gf =>
          (pred_to_gt.lookup pt).map fun gtv => (gf, gtv)).toFinset

/-- A node as consumed by the metrics functions (`metrics.py` reads exactly
`str(n["id"])` of each node dict; the claims quantify over graphs, whose
nodes carry an id). -/
structure GNode where
  id : String
deriving DecidableEq, Repr

/-- `_edge_set(edges)` from `metrics.py`: the set of `(str(e["from"]),
str(e["to"]))` pairs; edge dicts are modelled as their endpoint pair. -/
def edgeSetOf (edges : List (String × String)) : Finset (String × String) :=
  edges.toFinset

/-- `compute_direction_accuracy(gt_edges, projected_pred_edges_gt_space)`
from `metrics.py`.  The loop over the projected set increments `denom` for
every pair `(a, b)` with `(a, b)` or `(b, a)` in the GT edge set and
`correct` for the sub-case `(a, b)` in the GT edge set; since the counters
are order-independent they are modelled as filter cardinalities. -/
def compute_direction_accuracy (gt_edges : List (String × String))
    (projected : Finset (String × String)) : ℚ :=
  let gt := edgeSetOf gt_edges
  let denom := (projected.filter (fun ab => ab ∈ gt ∨ (ab.2, ab.1) ∈ gt)).card
  let correct := (projected.filter (fun ab => ab ∈ gt)).card
  if 0 < denom then (correct : ℚ) / (denom : ℚ) else 0

/-- `compute_exact_match(gt_nodes, gt_edges, pred_nodes,
projected_pred_edges_gt_space, pred_to_gt)` from `metrics.py`. -/
def compute_exact_match (gt_nodes : List GNode)
    (gt_edges : List (String × String)) (pred_nodes : List GNode)
    (projected : Finset (String × String))
    (pred_to_gt : List (String × String)) : Bool :=
  let gt_node_ids := (gt_nodes.map GNode.id).toFinset
  let pred_node_ids := (pred_nodes.map GNode.id).toFinset
  let node_exact :=
    pred_node_ids.card = gt_node_ids.card ∧
    pred_to_gt.length = gt_node_ids.card ∧
    (pred_to_gt.map Prod.snd).toFinset = gt_node_ids
  let edge_exact := projected = edgeSetOf gt_edges
  decide (node_exact ∧ edge_exact)

/-- A JSON value, as read from `dataset.json` and the per-sample graph files
and as written into the result record (rationals stand for floats). -/
inductive JV where
  | null
  | b (v : Bool)
  | n (v : Int)
  | q (v : ℚ)
  | s (v : String)
  | arr (items : List JV)
  | obj (fields : List (String × JV))
deriving Repr

/-- Dict lookup `d[k]` / `d.get(k)` on a JSON object, first binding wins. -/
def lookupJ (l : List (String × JV)) (k : String) : Option JV :=
  l.lookup k

/-- `SCHEMA_VERSION` from `benchmark/result_schema.py`. -/
def SCHEMA_VERSION : String := "1"

/-- The `PRF1` dataclass of `benchmark/metrics.py`. -/
structure PRF1 where
  precision : ℚ
  «recall» : ℚ
  f1 : ℚ
deriving DecidableEq, Repr

/-- The `AggregateResult` dataclass of `benchmark/runner.py`. -/
structure AggregateResult where
  node : PRF1
  edge : PRF1
  direction_accuracy : ℚ
  exact_match_rate : ℚ
  runtime_mean_s : Option ℚ
deriving DecidableEq, Repr

/-- The runner's `BenchmarkResult` as seen by `write_benchmark_json`: the
attribute probing finds `aggregate` and, lacking a `num_samples` attribute,
falls back to `len(result.samples)`; only that length reaches the record, so
the sample list is modelled by its length. -/
structure RunnerBenchmarkResult where
  num_samples : Nat
  aggregate : AggregateResult
deriving DecidableEq, Repr

/-- The `metrics` block built by `write_benchmark_json` from the runner's
aggregate: the `node` and `edge` PRF1 attributes are present on
`AggregateResult`, so all six PRF1 keys are written, then
`direction_accuracy` and `exact_match_rate`, and `runtime_mean_s` only when
the aggregate carries a runtime. -/
def metricsBlock (agg : AggregateResult) : List (String × JV) :=
  [("node_precision", .q agg.node.precision),
   ("node_recall", .q agg.node.recall),
   ("node_f1", .q agg.node.f1),
   ("edge_precision", .q agg.edge.precision),
   ("edge_recall", .q agg.edge.recall),
   ("edge_f1", .q agg.edge.f1),
   ("direction_accuracy", .q agg.direction_accuracy),
   ("exact_match_rate", .q agg.exact_match_rate)] ++
  (match agg.runtime_mean_s with
   | some r => [("runtime_mean_s", .q r)]
   | none => [])

/-- The record `write_benchmark_json` serializes (the dict produced by
`BenchmarkResult.to_dict`, whose keys are the dataclass fields in order).
The environment-derived parts (the dataset/split/predictor identifier
strings and the provenance `run` block) are parameters; `out.validate()`
passes, since the version is the `SCHEMA_VERSION` constant and the sample
count is a length. -/
def write_benchmark_record (result : RunnerBenchmarkResult)
    (dataset split predictor : String) (run : List (String × JV)) :
    List (String × JV) :=
  [("schema_version", .s SCHEMA_VERSION),
   ("dataset", .s dataset),
   ("split", .s split),
   ("predictor", .s predictor),
   ("num_samples", .n (result.num_samples : Int)),
   ("metrics", .obj (metricsBlock result.aggregate)),
   ("run", .obj run)]

/-- `_edge_to_dict` from `benchmark/runner.py`, on its dict branch (the
attribute-probing branches for edge objects are outside the JSON data
model): a `from`/`to` pair is taken as is, a `source`/`target` pair is
renamed to `from`/`to`, anything else is returned unchanged. -/
def edge_to_dict (e : List (String × JV)) : List (String × JV) :=
  if "from" ∈ e.map Prod.fst ∧ "to" ∈ e.map Prod.fst then
    [("from", (lookupJ e "from").getD .null), ("to", (lookupJ e "to").getD .null)]
  else if "source" ∈ e.map Prod.fst ∧ "target" ∈ e.map Prod.fst then
    [("from", (lookupJ e "source").getD .null),
     ("to", (lookupJ e "target").getD .null)]
  else e

/-! ### `datasets/validation.py` and `datasets/loader.py` -/

/-- Message of `validate_graph_json` for a non-object graph. -/
def msgGraphNotObject (sample_id path : String) : String :=
  s!"Graph must be a JSON object for sample_id={sample_id}: {path}"

/-- Message of `validate_graph_json` for missing `nodes`/`edges` keys. -/
def msgGraphMissingKeys (sample_id path : String) : String :=
  s!"Graph missing required keys (nodes, edges) for sample_id={sample_id}: {path}"

/-- Message of `validate_graph_json` for a non-list `nodes` or `edges`. -/
def msgNotAList (which sample_id path : String) : String :=
  s!"{which} must be a list for sample_id={sample_id}: {path}"

/-- Message of `validate_graph_json` for a non-object node or edge. -/
def msgEntryNotObject (which : String) (i : Nat) (sample_id path : String) :
    String :=
  s!"{which}[{i}] must be an object for sample_id={sample_id}: {path}"

/-- Message of `validate_graph_json` for a node without a valid id. -/
def msgNodeMissingId (i : Nat) (sample_id path : String) : String :=
  s!"Node[{i}] missing valid id (non-empty string) for sample_id={sample_id}: {path}"

/-- Message of `validate_graph_json` for an edge without a valid `source` or
`target` endpoint. -/
def msgEdgeMissingEndpoint (i : Nat) (which sample_id path : String) : String :=
  s!"Edge[{i}] missing valid {which} (non-empty string) for sample_id={sample_id}: {path}"

/-- The node loop of `validate_graph_json`: every node must be an object
whose `id` is a non-empty string. -/
def checkGraphNodes (sample_id path : String) :
    Nat → List JV → Except String Unit
  | _, [] => .ok ()
  | i, node :: rest =>
    match node with
    | .obj nf =>
      match lookupJ nf "id" with
      | some (.s v) =>
        if v = "" then .error (msgNodeMissingId i sample_id path)
        else checkGraphNodes sample_id path (i + 1) rest
      | _ => .error (msgNodeMissingId i sample_id path)
    | _ => .error (msgEntryNotObject "Node" i sample_id path)

/-- The edge loop of `validate_graph_json`: every edge must be an object
whose `source` and `target` are non-empty strings. -/
def checkGraphEdges (sample_id path : String) :
    Nat → List JV → Except String Unit
  | _, [] => .ok ()
  | i, edge :: rest =>
    match edge with
    | .obj ef =>
      match lookupJ ef "source" with
      | some (.s sv) =>
        if sv = "" then .error (msgEdgeMissingEndpoint i "source" sample_id path)
        else
          match lookupJ ef "target" with
          | some (.s tv) =>
            if tv = "" then
              .error (msgEdgeMissingEndpoint i "target" sample_id path)
            else checkGraphEdges sample_id path (i + 1) rest
          | _ => .error (msgEdgeMissingEndpoint i "target" sample_id path)
      | _ => .error (msgEdgeMissingEndpoint i "source" sample_id path)
    | _ => .error (msgEntryNotObject "Edge" i sample_id path)

/-- `validate_graph_json(data, sample_id=..., path=...)` from
`datasets/validation.py`: structural validation of one per-sample graph
file. -/
def validate_graph_json (data : JV) (sample_id path : String) :
    Except String Unit :=
  match data with
  | .obj fields =>
    match lookupJ fields "nodes", lookupJ fields "edges" with
    | some nodes, some edges =>
      match nodes with
      | .arr nodeList =>
        match edges with
        | .arr edgeList => do
          checkGraphNodes sample_id path 0 nodeList
          checkGraphEdges sample_id path 0 edgeList
        | _ => .error (msgNotAList "edges" sample_id path)
      | _ => .error (msgNotAList "nodes" sample_id path)
    | _, _ => .error (msgGraphMissingKeys sample_id path)
  | _ => .error (msgGraphNotObject sample_id path)

/-- `SUPPORTED_DATASET_SCHEMA_VERSIONS` from `datasets/validation.py`. -/
def SUPPORTED_DATASET_SCHEMA_VERSIONS : List String := ["1.0"]

/-- Message of `validate_dataset_metadata` for an unsupported version. -/
def msgUnsupportedSchemaVersion (v : String) : String :=
  s!"Unsupported dataset schema_version: {v}. Supported: [1.0]"

/-- `validate_dataset_metadata(raw, default_name=...)` from
`datasets/validation.py`: enforces the schema-version allow-list and the
string-ness of `name`/`version`, and returns the `(schema_version, name,
version, raw_splits, extra)` tuple. -/
def validate_dataset_metadata (raw : List (String × JV))
    (default_name : String) :
    Except String (String × String × String × Option JV × List (String × JV)) :=
  match lookupJ raw "schema_version" with
  | none => .error "dataset.json missing required field: schema_version"
  | some sv =>
    match sv with
    | .s schema_version =>
      if schema_version ∉ SUPPORTED_DATASET_SCHEMA_VERSIONS then
        .error (msgUnsupportedSchemaVersion schema_version)
      else
        match (lookupJ raw "name").getD (.s default_name) with
        | .s name =>
          match (lookupJ raw "version").getD (.s "0.0") with
          | .s version =>
            .ok (schema_version, name, version, lookupJ raw "splits",
              raw.filter fun kv =>
                decide (kv.1 ∉ ["schema_version", "name", "version", "splits"]))
          | _ => .error "dataset.json version must be a string"
        | _ => .error "dataset.json name must be a string"
    | _ => .error "dataset.json schema_version must be a string"

/-- Python `str()` on the JSON values that can sit in `dataset.json`
metadata fields (only the string case matters for the claims). -/
def pyStr : JV → String
  | .s v => v
  | .n i => toString i
  | .q v => toString v
  | .b true => "True"
  | .b false => "False"
  | .null => "None"
  | .arr _ => "<list>"
  | .obj _ => "<dict>"

/-- The directory contents `load_dataset` reads: the parsed `dataset.json`
(`none` when the file does not exist), the file names in `images/` and
`graphs/`, and whether those directories exist.  `root.name` is the
directory name used as the default dataset name. -/
structure PyFS where
  rootName : String
  datasetJson : Option JV
  imagesDirExists : Bool
  graphsDirExists : Bool
  imageFiles : List String
  graphFiles : List String
deriving Repr

/-- `ALLOWED_IMAGE_EXTS` from `datasets/validation.py`. -/
def ALLOWED_IMAGE_EXTS : List String := [".png", ".jpg", ".jpeg", ".webp", ".svg"]

/-- `pathlib` stem/suffix of a file name: split at the last dot, provided it
is neither the leading nor the trailing character. -/
def fileStemSuffix (name : String) : String × String :=
  let cs := name.toList
  match ((List.range cs.length).filter fun i => decide (cs.getD i ' ' = '.')).getLast? with
  | some i =>
    if 0 < i ∧ i + 1 < cs.length then ((cs.take i).asString, (cs.drop i).asString)
    else (name, "")
  | none => (name, "")

/-- Python `str.lower()` as used on file suffixes, character by character
(stated on the character list so that it evaluates in the kernel). -/
def strToLower (s : String) : String :=
  (s.toList.map Char.toLower).asString

/-- `list_image_ids`: stems of the files in `images/` whose lower-cased
suffix is an allowed image extension. -/
def list_image_ids (fs : PyFS) : Finset String :=
  ((fs.imageFiles.filter fun f =>
      decide (strToLower (fileStemSuffix f).2 ∈ ALLOWED_IMAGE_EXTS)).map
    fun f => (fileStemSuffix f).1).toFinset

/-- `list_graph_ids`: stems of the `*.json` files in `graphs/`. -/
def list_graph_ids (fs : PyFS) : Finset String :=
  ((fs.graphFiles.filter fun f => decide ((fileStemSuffix f).2 = ".json")).map
    fun f => (fileStemSuffix f).1).toFinset

/-- Message of `validate_pairs` (the Python message lists up to 20 missing
ids per side; the list rendering is approximated by the Lean `List` repr). -/
def msgPairMismatch (missing_graphs missing_images : List String) : String :=
  "Image/graph ID mismatch:" ++
  (if missing_graphs ≠ [] then
    s!"\n  missing graphs for: {(missing_graphs.take 20)}" else "") ++
  (if missing_images ≠ [] then
    s!"\n  missing images for: {(missing_images.take 20)}" else "")

/-- `validate_pairs(image_ids, graph_ids)` from `datasets/validation.py`. -/
def validate_pairs (image_ids graph_ids : Finset String) :
    Except String Unit :=
  if image_ids = graph_ids then .ok ()
  else
    .error
      (msgPairMismatch ((image_ids \ graph_ids).sort (· ≤ ·))
        ((graph_ids \ image_ids).sort (· ≤ ·)))

/-- The inner loop of `validate_splits`: check each id of one split against
the known ids and the ids already seen in earlier splits. -/
def checkSplitIds (all_ids : Finset String) (split_name : String) :
    List String → Finset String → Except String (Finset String)
  | [], seen => .ok seen
  | sid :: rest, seen =>
    if sid ∉ all_ids then
      .error s!"Split {split_name} references unknown sample_id: {sid}"
    else if sid ∈ seen then
      .error s!"Duplicate sample_id across splits: {sid}"
    else checkSplitIds all_ids split_name rest (insert sid seen)

/-- `validate_splits(all_ids, splits)` from `datasets/validation.py`
(returns the splits unchanged after checking ids and cross-split
duplicates). -/
def validate_splits (all_ids : Finset String)
    (splits : List (String × List String)) :
    Except String (List (String × List String)) := do
  let _ ← splits.foldlM
    (fun seen sp => checkSplitIds all_ids sp.1 sp.2 seen) (∅ : Finset String)
  pure splits

/-- The `DatasetSample` record built by `load_dataset` (paths as strings
relative to the dataset root). -/
structure DatasetSampleM where
  sample_id : String
  image_path : String
  graph_path : String
  split : String
deriving DecidableEq, Repr

/-- The `DatasetMetadata` record built by `load_dataset`. -/
structure DatasetMetadataM where
  schema_version : String
  name : String
  version : String
  splits : List (String × List String)
  extra : List (String × JV)
deriving Repr

/-- The `Dataset` record built by `load_dataset`. -/
structure PyDataset where
  root : String
  metadata : DatasetMetadataM
  samples : List DatasetSampleM
deriving Repr

/-- `_pick_image_path(images_dir, sample_id)` from `datasets/loader.py`:
probe the allowed extensions in sorted order. -/
def pick_image_path (fs : PyFS) (sample_id : String) : Except String String :=
  match (List.insertionSort (· ≤ ·) ALLOWED_IMAGE_EXTS).find?
      (fun ext => decide ((sample_id ++ ext) ∈ fs.imageFiles)) with
  | some ext => .ok ("images/" ++ sample_id ++ ext)
  | none => .error s!"No image found for sample_id={sample_id} in images/"

/-- A JSON splits value as string lists (the on-disk contract declares split
members as strings; other JSON values are rendered with `str` and, not being
known ids, fail validation just as in Python). -/
def splitsOfJV (fields : List (String × JV)) : List (String × List String) :=
  fields.map fun kv =>
    (kv.1, match kv.2 with
      | .arr items => items.map pyStr
      | _ => [])

/-- `load_dataset(root)` from `datasets/loader.py`.  Note that this function
reads `schema_version` with `str(raw.get("schema_version", "1.0"))` and
performs no further check on it, and that it never opens or validates the
per-sample graph files. -/
def load_dataset (fs : PyFS) : Except String PyDataset := do
  if fs.datasetJson.isNone then
    throw s!"Missing dataset.json: {fs.rootName}/dataset.json"
  if ¬ fs.imagesDirExists then
    throw s!"Missing images/ directory: {fs.rootName}/images"
  if ¬ fs.graphsDirExists then
    throw s!"Missing graphs/ directory: {fs.rootName}/graphs"
  match fs.datasetJson with
  | none => throw s!"Missing dataset.json: {fs.rootName}/dataset.json"
  | some raw =>
    match raw with
    | .obj rawF => do
      let schema_version := pyStr ((lookupJ rawF "schema_version").getD (.s "1.0"))
      let name := pyStr ((lookupJ rawF "name").getD (.s fs.rootName))
      let version := pyStr ((lookupJ rawF "version").getD (.s "0.0"))
      let image_ids := list_image_ids fs
      let graph_ids := list_graph_ids fs
      validate_pairs image_ids graph_ids
      let extra := rawF.filter fun kv =>
        decide (kv.1 ∉ ["schema_version", "name", "version", "splits"])
      let sortedIds := image_ids.sort (· ≤ ·)
      let splits ← (match lookupJ rawF "splits" with
        | none => pure [("all", sortedIds)]
        | some sv =>
          match sv with
          | .obj so => validate_splits image_ids (splitsOfJV so)
          | _ => throw "dataset.json splits must be an object mapping split names to id lists")
      let sample_split := splits.flatMap fun sp => sp.2.map fun sid => (sid, sp.1)
      if (lookupJ rawF "splits").isSome then
        let unassigned := (image_ids \ (sample_split.map Prod.fst).toFinset).sort (· ≤ ·)
        if unassigned ≠ [] then
          throw s!"Unassigned sample_ids (not in any split): {(unassigned.take 20)}"
      let samples ← sortedIds.mapM fun sid => do
        let ip ← pick_image_path fs sid
        pure (⟨sid, ip, "graphs/" ++ sid ++ ".json",
          ((sample_split.lookup sid).getD "")⟩ : DatasetSampleM)
      pure
        { root := fs.rootName
          metadata :=
            { schema_version := schema_version, name := name, version := version
              splits := splits, extra := extra }
          samples := samples }
    | _ => throw "dataset.json must be a JSON object"

/-! ### Lemmas about the greedy scan -/

theorem ok_bind {ε α β : Type} (x : α) (f : α → Except ε β) :
    (Except.ok x : Except ε α) >>= f = f x :=
  rfl

theorem error_bind {ε α β : Type} (e : ε) (f : α → Except ε β) :
    (Except.error e : Except ε α) >>= f = .error e :=
  rfl

theorem pure_eq_ok {ε α : Type} (x : α) :
    (pure x : Except ε α) = .ok x :=
  rfl

theorem delG_delP (x y : String) (l : List Cand) :
    delG y (delP x l) = delP x (delG y l) :=
  List.filter_comm _ _ _

theorem delP_delP (x x2 : String) (l : List Cand) :
    delP x (delP x2 l) = delP x2 (delP x l) :=
  List.filter_comm _ _ _

theorem delG_delG (y y2 : String) (l : List Cand) :
    delG y (delG y2 l) = delG y2 (delG y l) :=
  List.filter_comm _ _ _

theorem delP_filter (x : String) (p : Cand → Bool) (l : List Cand) :
    delP x (l.filter p) = (delP x l).filter p :=
  List.filter_comm _ _ _

theorem delG_filter (y : String) (p : Cand → Bool) (l : List Cand) :
    delG y (l.filter p) = (delG y l).filter p :=
  List.filter_comm _ _ _

theorem specGreedy_eq_greedyR_filter (l : List Cand) :
    ∀ uP uG : List String,
      specGreedy l uP uG =
        greedyR (l.filter fun c => decide (c.pid ∉ uP ∧ c.gid ∉ uG)) := by
  induction l with
  | nil => intro uP uG; simp [specGreedy, greedyR]
  | cons c rest ih =>
    intro uP uG
    by_cases hc : c.pid ∈ uP ∨ c.gid ∈ uG
    · have hfalse : decide (c.pid ∉ uP ∧ c.gid ∉ uG) = false := by
        simp only [decide_eq_false_iff_not]
        tauto
      simp only [specGreedy, if_pos hc, List.filter_cons, hfalse,
        Bool.false_eq_true, if_false]
      exact ih uP uG
    · have htrue : decide (c.pid ∉ uP ∧ c.gid ∉ uG) = true := by
        push_neg at hc
        simp [hc.1, hc.2]
      simp only [specGreedy, if_neg hc, List.filter_cons, htrue, if_pos]
      rw [greedyR]
      congr 1
      rw [ih (c.pid :: uP) (c.gid :: uG)]
      congr 1
      simp only [delP, delG, List.filter_filter]
      refine List.filter_congr ?_
      intro a _
      by_cases h1 : a.pid = c.pid
      · simp [h1]
      · by_cases h2 : a.gid = c.gid
        · simp [h1, h2]
        · by_cases h3 : a.pid ∈ uP
          · simp [h1, h2, h3]
          · by_cases h4 : a.gid ∈ uG <;> simp [h1, h2, h3, h4]

theorem specGreedy_eq_greedyR (l : List Cand) :
    specGreedy l [] [] = greedyR l := by
  rw [specGreedy_eq_greedyR_filter]
  congr 1
  simp

theorem foldl_greedyStep_eq_specGreedy (l : List Cand) :
    ∀ (m : List (String × String)) (uP uG : List String),
      (l.foldl greedyStep (m, uP, uG)).1 = m ++ specGreedy l uP uG := by
  induction l with
  | nil => intro m uP uG; simp [specGreedy]
  | cons c rest ih =>
    intro m uP uG
    by_cases hc : c.pid ∈ uP ∨ c.gid ∈ uG
    · simp only [List.foldl_cons, greedyStep, if_pos hc, specGreedy]
      exact ih m uP uG
    · simp only [List.foldl_cons, greedyStep, if_neg hc, specGreedy]
      rw [ih (m ++ [(c.pid, c.gid)]) (c.pid :: uP) (c.gid :: uG)]
      simp

theorem mem_pid_greedyR {l : List Cand} {x : String}
    (h : x ∈ (greedyR l).map Prod.fst) : x ∈ l.map Cand.pid := by
  induction l using greedyR.induct with
  | case1 => simp [greedyR] at h
  | case2 c rest ih =>
    rw [greedyR] at h
    simp only [List.map_cons, List.mem_cons] at h ⊢
    rcases h with h | h
    · exact Or.inl h
    · refine Or.inr ?_
      have h2 := ih h
      have hsub : List.Sublist (delP c.pid (delG c.gid rest)) rest :=
        List.Sublist.trans (List.filter_sublist _) (List.filter_sublist _)
      exact (hsub.map Cand.pid).subset h2

theorem mem_gid_greedyR {l : List Cand} {y : String}
    (h : y ∈ (greedyR l).map Prod.snd) : y ∈ l.map Cand.gid := by
  induction l using greedyR.induct with
  | case1 => simp [greedyR] at h
  | case2 c rest ih =>
    rw [greedyR] at h
    simp only [List.map_cons, List.mem_cons] at h ⊢
    rcases h with h | h
    · exact Or.inl h
    · refine Or.inr ?_
      have h2 := ih h
      have hsub : List.Sublist (delP c.pid (delG c.gid rest)) rest :=
        List.Sublist.trans (List.filter_sublist _) (List.filter_sublist _)
      exact (hsub.map Cand.gid).subset h2

theorem nodup_fst_greedyR (l : List Cand) : ((greedyR l).map Prod.fst).Nodup := by
  induction l using greedyR.induct with
  | case1 => simp [greedyR]
  | case2 c rest ih =>
    rw [greedyR]
    simp only [List.map_cons, List.nodup_cons]
    refine ⟨fun hmem => ?_, ih⟩
    have h2 := mem_pid_greedyR hmem
    simp only [delP, List.mem_map] at h2
    obtain ⟨a, ha, hpa⟩ := h2
    have := List.of_mem_filter ha
    simp only [decide_eq_true_eq] at this
    exact this hpa

theorem nodup_snd_greedyR (l : List Cand) : ((greedyR l).map Prod.snd).Nodup := by
  induction l using greedyR.induct with
  | case1 => simp [greedyR]
  | case2 c rest ih =>
    rw [greedyR]
    simp only [List.map_cons, List.nodup_cons]
    refine ⟨fun hmem => ?_, ih⟩
    have h2 := mem_gid_greedyR hmem
    simp only [delP, delG, List.mem_map] at h2
    obtain ⟨a, ha, hpa⟩ := h2
    have := List.of_mem_filter (List.mem_of_mem_filter ha)
    simp only [decide_eq_true_eq] at this
    exact this hpa

/-! ### Lemmas about the dict-building loops -/

theorem pyUpsert_fresh {α : Type} (l : List (String × α)) (k : String) (v : α)
    (h : k ∉ l.map Prod.fst) : pyUpsert l k v = l ++ [(k, v)] := by
  induction l with
  | nil => rfl
  | cons p t ih =>
    simp only [List.map_cons, List.mem_cons] at h
    push_neg at h
    rw [pyUpsert, if_neg (Ne.symm h.1), ih h.2]
    simp

theorem pyUpsert_keys {α : Type} (l : List (String × α)) (k : String) (v : α) :
    (pyUpsert l k v).map Prod.fst =
      if k ∈ l.map Prod.fst then l.map Prod.fst else l.map Prod.fst ++ [k] := by
  induction l with
  | nil => simp [pyUpsert]
  | cons p t ih =>
    by_cases hk : p.1 = k
    · rw [show pyUpsert (p :: t) k v = (k, v) :: t from by rw [pyUpsert, if_pos hk]]
      simp [hk]
    · rw [show pyUpsert (p :: t) k v = p :: pyUpsert t k v from by
        rw [pyUpsert]
        rcases p with ⟨p1, p2⟩
        rw [if_neg hk]]
      by_cases hmem : k ∈ t.map Prod.fst
      · simp [ih, hmem, Ne.symm hk]
      · simp [ih, hmem, Ne.symm hk]

theorem pyUpsert_keys_nodup {α : Type} (l : List (String × α)) (k : String)
    (v : α) (h : (l.map Prod.fst).Nodup) :
    ((pyUpsert l k v).map Prod.fst).Nodup := by
  rw [pyUpsert_keys]
  by_cases hmem : k ∈ l.map Prod.fst
  · simpa [hmem]
  · simp only [hmem, if_false]
    simp [List.nodup_append, h, hmem]

theorem foldlM_buildStep_map {α : Type} (err : String) (f : Bbox → α) :
    ∀ (l : List (String × Bbox)) (acc : List (String × α)),
      (l.map Prod.fst).Nodup →
      (∀ k ∈ l.map Prod.fst, k ∉ acc.map Prod.fst) →
      List.foldlM (buildStep err f)
          acc (l.map fun p => (⟨some p.1, some p.2⟩ : NodeDict)) =
        .ok (acc ++ l.map fun p => (p.1, f p.2)) := by
  intro l
  induction l with
  | nil => intro acc _ _; simp; rfl
  | cons p t ih =>
    intro acc hnd hfr
    rw [List.map_cons, List.foldlM_cons]
    rw [show buildStep err f acc ⟨some p.1, some p.2⟩ =
      .ok (pyUpsert acc p.1 (f p.2)) from rfl]
    rw [pyUpsert_fresh _ _ _ (hfr p.1 (by simp))]
    simp only [List.map_cons, List.nodup_cons] at hnd
    have hfr2 : ∀ k ∈ t.map Prod.fst,
        k ∉ (acc ++ [(p.1, f p.2)]).map Prod.fst := by
      intro k hk
      simp only [List.map_append, List.mem_append]
      push_neg
      constructor
      · exact hfr k (by simp [hk])
      · simp only [List.map_cons, List.map_nil, List.mem_singleton]
        intro hkp
        exact hnd.1 (hkp ▸ hk)
    have := ih (acc ++ [(p.1, f p.2)]) hnd.2 hfr2
    simp only [Except.bind] at this ⊢
    rw [show ((Except.ok (acc ++ [(p.1, f p.2)]) : Except String _) >>=
        fun acc2 => List.foldlM (buildStep err f) acc2
          (t.map fun p => (⟨some p.1, some p.2⟩ : NodeDict))) =
        List.foldlM (buildStep err f) (acc ++ [(p.1, f p.2)])
          (t.map fun p => (⟨some p.1, some p.2⟩ : NodeDict)) from rfl]
    rw [this]
    simp

theorem buildNodeMap_map {α : Type} (err : String) (f : Bbox → α)
    (l : List (String × Bbox)) (h : (l.map Prod.fst).Nodup) :
    buildNodeMap err f (l.map fun p => (⟨some p.1, some p.2⟩ : NodeDict)) =
      .ok (l.map fun p => (p.1, f p.2)) := by
  have := foldlM_buildStep_map err f l [] h (by simp)
  simpa [buildNodeMap] using this

theorem foldlM_buildStep_wf {α : Type} (err : String) (f : Bbox → α) :
    ∀ (nodes : List NodeDict) (acc : List (String × α)),
      (∀ n ∈ nodes, n.id.isSome ∧ n.bbox.isSome) →
      ∃ out, List.foldlM (buildStep err f) acc nodes = .ok out := by
  intro nodes
  induction nodes with
  | nil => intro acc _; exact ⟨acc, rfl⟩
  | cons n t ih =>
    intro acc hwf
    obtain ⟨i, hi⟩ := Option.isSome_iff_exists.mp (hwf n (by simp)).1
    obtain ⟨b, hb⟩ := Option.isSome_iff_exists.mp (hwf n (by simp)).2
    rw [List.foldlM_cons]
    rw [show buildStep err f acc n = .ok (pyUpsert acc i (f b)) from by
      rw [buildStep, hi, hb]]
    obtain ⟨out, hout⟩ := ih (pyUpsert acc i (f b))
      (fun n2 hn2 => hwf n2 (by simp [hn2]))
    exact ⟨out, by simpa [Except.bind] using hout⟩

theorem buildNodeMap_wf {α : Type} (err : String) (f : Bbox → α)
    (nodes : List NodeDict)
    (h : ∀ n ∈ nodes, n.id.isSome ∧ n.bbox.isSome) :
    ∃ out, buildNodeMap err f nodes = .ok out :=
  foldlM_buildStep_wf err f nodes [] h

theorem foldlM_buildStep_error {α : Type} (err : String) (f : Bbox → α) :
    ∀ (nodes : List NodeDict) (acc : List (String × α)),
      (∃ n ∈ nodes, n.id = none ∨ n.bbox = none) →
      List.foldlM (buildStep err f) acc nodes = .error err := by
  intro nodes
  induction nodes with
  | nil => intro acc h; simp at h
  | cons n t ih =>
    intro acc hex
    rw [List.foldlM_cons]
    match hni : n.id, hnb : n.bbox with
    | some i, some b =>
      rw [show buildStep err f acc n = .ok (pyUpsert acc i (f b)) from by
        rw [buildStep, hni, hnb]]
      obtain ⟨n0, hn0, hbad⟩ := hex
      rcases List.mem_cons.mp hn0 with h0 | h0
      · subst h0
        rcases hbad with hbad | hbad
        · rw [hni] at hbad; cases hbad
        · rw [hnb] at hbad; cases hbad
      · have := ih (pyUpsert acc i (f b)) ⟨n0, h0, hbad⟩
        simpa [Except.bind] using this
    | some i, none =>
      rw [show buildStep err f acc n = .error err from by rw [buildStep, hni, hnb]]
      rfl
    | none, hh =>
      rw [show buildStep err f acc n = .error err from by rw [buildStep, hni]]
      rfl

theorem buildNodeMap_error {α : Type} (err : String) (f : Bbox → α)
    (nodes : List NodeDict)
    (h : ∃ n ∈ nodes, n.id = none ∨ n.bbox = none) :
    buildNodeMap err f nodes = .error err :=
  foldlM_buildStep_error err f nodes [] h

/-! ### Closed forms of `match_nodes_center_distance` -/

theorem foldl_greedyStep_nil (l : List Cand) :
    (l.foldl greedyStep ([], [], [])).1 = greedyR l := by
  rw [foldl_greedyStep_eq_specGreedy, specGreedy_eq_greedyR]
  simp

theorem match_eq_greedyR (gt_nodes pred_nodes : List NodeDict) (alpha : ℚ)
    (halpha : 0 < alpha) {gi : List (String × ((ℚ × ℚ) × ℚ))}
    {pc : List (String × (ℚ × ℚ))} (hg : buildGtInfo gt_nodes = .ok gi)
    (hp : buildPredCenters pred_nodes = .ok pc) :
    match_nodes_center_distance gt_nodes pred_nodes alpha =
      .ok (greedyR (List.insertionSort candLE (candidatesOf pc gi alpha))) := by
  unfold match_nodes_center_distance
  rw [if_neg (not_le.mpr halpha), hg, hp]
  show Except.ok
      ((List.insertionSort candLE (candidatesOf pc gi alpha)).foldl
        greedyStep ([], [], [])).1 = _
  rw [foldl_greedyStep_nil]

theorem match_eq_error_gt (gt_nodes pred_nodes : List NodeDict) (alpha : ℚ)
    (halpha : 0 < alpha) {e : String} (hg : buildGtInfo gt_nodes = .error e) :
    match_nodes_center_distance gt_nodes pred_nodes alpha = .error e := by
  unfold match_nodes_center_distance
  rw [if_neg (not_le.mpr halpha), hg]
  rfl

theorem match_eq_error_pred (gt_nodes pred_nodes : List NodeDict) (alpha : ℚ)
    (halpha : 0 < alpha) {gi : List (String × ((ℚ × ℚ) × ℚ))} {e : String}
    (hg : buildGtInfo gt_nodes = .ok gi)
    (hp : buildPredCenters pred_nodes = .error e) :
    match_nodes_center_distance gt_nodes pred_nodes alpha = .error e := by
  unfold match_nodes_center_distance
  rw [if_neg (not_le.mpr halpha), hg, hp]
  rfl

theorem wf_of_not_bad {nodes : List NodeDict}
    (h : ¬ ∃ n ∈ nodes, n.id = none ∨ n.bbox = none) :
    ∀ n ∈ nodes, n.id.isSome ∧ n.bbox.isSome := by
  push_neg at h
  intro n hn
  have h2 := h n hn
  constructor
  · exact Option.ne_none_iff_isSome.mp h2.1
  · exact Option.ne_none_iff_isSome.mp h2.2

/-- C10: `match_nodes_center_distance` fails (with `MatchingError`) exactly
when `alpha <= 0` or some GT or predicted node dict lacks an `id` or `bbox`
key; for `alpha > 0` with all nodes carrying both keys it returns an
alignment. -/
theorem match_errors_iff_invalid_alpha_or_malformed_node
    (gt_nodes pred_nodes : List NodeDict) (alpha : ℚ) :
    (∃ e, match_nodes_center_distance gt_nodes pred_nodes alpha = .error e) ↔
      (alpha ≤ 0 ∨ (∃ n ∈ gt_nodes, n.id = none ∨ n.bbox = none) ∨
        (∃ n ∈ pred_nodes, n.id = none ∨ n.bbox = none)) := by
  by_cases halpha : alpha ≤ 0
  · constructor
    · intro _; exact Or.inl halpha
    · intro _
      exact ⟨"alpha must be > 0", by rw [match_nodes_center_distance, if_pos halpha]⟩
  · have halpha2 : 0 < alpha := not_le.mp halpha
    by_cases hgt : ∃ n ∈ gt_nodes, n.id = none ∨ n.bbox = none
    · constructor
      · intro _; exact Or.inr (Or.inl hgt)
      · intro _
        exact ⟨"GT nodes must have id and bbox",
          match_eq_error_gt _ _ _ halpha2
            (buildNodeMap_error _ _ _ hgt)⟩
    · obtain ⟨gi, hgi⟩ :=
        buildNodeMap_wf "GT nodes must have id and bbox"
          (fun b => (center b, diag2 b)) gt_nodes (wf_of_not_bad hgt)
      by_cases hpred : ∃ n ∈ pred_nodes, n.id = none ∨ n.bbox = none
      · constructor
        · intro _; exact Or.inr (Or.inr hpred)
        · intro _
          exact ⟨"Pred nodes must have id and bbox",
            match_eq_error_pred _ _ _ halpha2 hgi
              (buildNodeMap_error _ _ _ hpred)⟩
      · obtain ⟨pc, hpc⟩ :=
          buildNodeMap_wf "Pred nodes must have id and bbox" center pred_nodes
            (wf_of_not_bad hpred)
        constructor
        · intro ⟨e, he⟩
          rw [match_eq_greedyR _ _ _ halpha2 hgi hpc] at he
          cases he
        · intro h
          rcases h with h | h | h
          · exact absurd h halpha
          · exact absurd h hgt
          · exact absurd h hpred

/-- C2 (counterexample): with an empty GT node list but a malformed
predicted node, `match_nodes_center_distance` raises `MatchingError` instead
of returning the empty alignment, so an empty side does not by itself
guarantee an error-free empty result. -/
theorem empty_gt_with_malformed_pred_raises :
    match_nodes_center_distance [] [⟨none, none⟩] 1 =
      .error "Pred nodes must have id and bbox" := by
  rfl

/-- C2 (amended): for `alpha > 0`, any alignment `match_nodes_center_distance`
returns is an injective partial map (its predicted ids are pairwise distinct
and its GT ids are pairwise distinct), and when either node list is empty and
the nodes of the other list all carry `id` and `bbox`, the result is the
empty alignment with no error. -/
theorem alignment_injective_and_empty_sides
    (gt_nodes pred_nodes : List NodeDict) (alpha : ℚ) (halpha : 0 < alpha) :
    (∀ m, match_nodes_center_distance gt_nodes pred_nodes alpha = .ok m →
      ((m.map Prod.fst).Nodup ∧ (m.map Prod.snd).Nodup)) ∧
    ((gt_nodes = [] ∨ pred_nodes = []) →
      (∀ n ∈ gt_nodes ++ pred_nodes, n.id.isSome ∧ n.bbox.isSome) →
      match_nodes_center_distance gt_nodes pred_nodes alpha = .ok []) := by
  constructor
  · intro m hm
    cases hgi : buildGtInfo gt_nodes with
    | error e => rw [match_eq_error_gt _ _ _ halpha hgi] at hm; cases hm
    | ok gi =>
      cases hpc : buildPredCenters pred_nodes with
      | error e => rw [match_eq_error_pred _ _ _ halpha hgi hpc] at hm; cases hm
      | ok pc =>
        rw [match_eq_greedyR _ _ _ halpha hgi hpc] at hm
        cases hm
        exact ⟨nodup_fst_greedyR _, nodup_snd_greedyR _⟩
  · intro hemp hwf
    rcases hemp with hemp | hemp
    · subst hemp
      obtain ⟨pc, hpc⟩ := buildNodeMap_wf "Pred nodes must have id and bbox"
        center pred_nodes (fun n hn => hwf n (by simpa using hn))
      rw [match_eq_greedyR _ _ _ halpha (rfl : buildGtInfo [] = .ok []) hpc]
      rw [show candidatesOf pc [] alpha = [] from by simp [candidatesOf]]
      rw [show List.insertionSort candLE ([] : List Cand) = [] from rfl]
      rw [show greedyR [] = [] from by rw [greedyR]]
    · subst hemp
      obtain ⟨gi, hgi⟩ := buildNodeMap_wf "GT nodes must have id and bbox"
        (fun b => (center b, diag2 b)) gt_nodes
        (fun n hn => hwf n (by simpa using hn))
      rw [match_eq_greedyR _ _ _ halpha hgi
        (rfl : buildPredCenters [] = .ok [])]
      rw [show candidatesOf [] gi alpha = [] from rfl]
      rw [show List.insertionSort candLE ([] : List Cand) = [] from rfl]
      rw [show greedyR [] = [] from by rw [greedyR]]

/-- C2 (witness): the amended theorem applied at concrete empty inputs. -/
theorem alignment_injective_and_empty_sides_witness :
    match_nodes_center_distance [] [] 1 = .ok [] :=
  (alignment_injective_and_empty_sides [] [] 1 (by norm_num)).2
    (Or.inl rfl) (by simp)

/-! ### Deleting a vertex star changes the greedy matching size by at most one -/

theorem candLE_d2_le {a b : Cand} (h : candLE a b) : a.d2 ≤ b.d2 := by
  rcases h with h | ⟨h, _⟩
  · exact le_of_lt h
  · exact le_of_eq h

theorem delP_cons_self {c : Cand} {t : List Cand} {x : String} (hx : c.pid = x) :
    delP x (c :: t) = delP x t := by
  simp [delP, List.filter_cons, hx]

theorem delP_cons_ne {c : Cand} {t : List Cand} {x : String} (hx : c.pid ≠ x) :
    delP x (c :: t) = c :: delP x t := by
  simp [delP, List.filter_cons, hx]

theorem delG_cons_self {c : Cand} {t : List Cand} {y : String} (hy : c.gid = y) :
    delG y (c :: t) = delG y t := by
  simp [delG, List.filter_cons, hy]

theorem delG_cons_ne {c : Cand} {t : List Cand} {y : String} (hy : c.gid ≠ y) :
    delG y (c :: t) = c :: delG y t := by
  simp [delG, List.filter_cons, hy]

theorem delP_length_le (x : String) (l : List Cand) :
    (delP x l).length ≤ l.length :=
  List.length_filter_le _ _

theorem delG_length_le (y : String) (l : List Cand) :
    (delG y l).length ≤ l.length :=
  List.length_filter_le _ _

/-- Deleting all candidates of one predicted id (`delP`) or one ground-truth
id (`delG`) from the scanned list decreases the number of greedily accepted
candidates by at most one, and never increases it.  The four bounds are
proved together by strong induction on the list length, each case reducing
to another bound on a strictly shorter list. -/
theorem greedy_del_bounds :
    ∀ (n : ℕ) (l : List Cand), l.length ≤ n →
      ((∀ x, (greedyR (delP x l)).length ≤ (greedyR l).length) ∧
        (∀ y, (greedyR (delG y l)).length ≤ (greedyR l).length)) ∧
      ((∀ x, (greedyR l).length ≤ (greedyR (delP x l)).length + 1) ∧
        (∀ y, (greedyR l).length ≤ (greedyR (delG y l)).length + 1)) := by
  intro n
  induction n with
  | zero =>
    intro l hl
    have hnil : l = [] := List.length_eq_zero.mp (Nat.le_zero.mp hl)
    subst hnil
    exact ⟨⟨fun x => by simp [delP], fun y => by simp [delG]⟩,
      ⟨fun x => by simp [delP], fun y => by simp [delG]⟩⟩
  | succ n ih =>
    intro l hl
    cases l with
    | nil =>
      exact ⟨⟨fun x => by simp [delP], fun y => by simp [delG]⟩,
        ⟨fun x => by simp [delP], fun y => by simp [delG]⟩⟩
    | cons c t =>
      have ht : t.length ≤ n := by simpa using hl
      have hgr : greedyR (c :: t) =
          (c.pid, c.gid) :: greedyR (delP c.pid (delG c.gid t)) := by
        rw [greedyR]
      have hRlen : (delP c.pid (delG c.gid t)).length ≤ n :=
        le_trans (le_trans (delP_length_le _ _) (delG_length_le _ _)) ht
      refine ⟨⟨?_, ?_⟩, ⟨?_, ?_⟩⟩
      · -- deleting a pred star does not increase the size
        intro x
        by_cases hx : c.pid = x
        · subst hx
          rw [delP_cons_self rfl, hgr]
          have h2 := ((ih (delP c.pid t)
            (le_trans (delP_length_le _ _) ht)).2).2 c.gid
          rw [delG_delP] at h2
          simpa using h2
        · rw [delP_cons_ne hx, hgr, greedyR]
          simp only [List.length_cons, Nat.add_le_add_iff_right]
          have hcomm : delP c.pid (delG c.gid (delP x t)) =
              delP x (delP c.pid (delG c.gid t)) := by
            rw [delG_delP, delP_delP]
          rw [hcomm]
          exact ((ih (delP c.pid (delG c.gid t)) hRlen).1).1 x
      · -- deleting a gt star does not increase the size
        intro y
        by_cases hy : c.gid = y
        · subst hy
          rw [delG_cons_self rfl, hgr]
          have h2 := ((ih (delG c.gid t)
            (le_trans (delG_length_le _ _) ht)).2).1 c.pid
          simpa using h2
        · rw [delG_cons_ne hy, hgr, greedyR]
          simp only [List.length_cons, Nat.add_le_add_iff_right]
          have hcomm : delP c.pid (delG c.gid (delG y t)) =
              delG y (delP c.pid (delG c.gid t)) := by
            rw [delG_delG, delG_delP]
          rw [hcomm]
          exact ((ih (delP c.pid (delG c.gid t)) hRlen).1).2 y
      · -- deleting a pred star decreases the size by at most one
        intro x
        by_cases hx : c.pid = x
        · subst hx
          rw [delP_cons_self rfl, hgr]
          have h2 := ((ih (delP c.pid t)
            (le_trans (delP_length_le _ _) ht)).1).2 c.gid
          rw [delG_delP] at h2
          simpa using Nat.add_le_add_right h2 1
        · rw [delP_cons_ne hx, hgr, greedyR]
          simp only [List.length_cons]
          have hcomm : delP c.pid (delG c.gid (delP x t)) =
              delP x (delP c.pid (delG c.gid t)) := by
            rw [delG_delP, delP_delP]
          rw [hcomm]
          have h2 := ((ih (delP c.pid (delG c.gid t)) hRlen).2).1 x
          omega
      · -- deleting a gt star decreases the size by at most one
        intro y
        by_cases hy : c.gid = y
        · subst hy
          rw [delG_cons_self rfl, hgr]
          have h2 := ((ih (delG c.gid t)
            (le_trans (delG_length_le _ _) ht)).1).1 c.pid
          simpa using Nat.add_le_add_right h2 1
        · rw [delG_cons_ne hy, hgr, greedyR]
          simp only [List.length_cons]
          have hcomm : delP c.pid (delG c.gid (delG y t)) =
              delG y (delP c.pid (delG c.gid t)) := by
            rw [delG_delG, delG_delP]
          rw [hcomm]
          have h2 := ((ih (delP c.pid (delG c.gid t)) hRlen).2).2 y
          omega

/-- Tightening a per-ground-truth-node distance threshold can only shrink
the greedy matching: filtering a candidate list that is sorted by distance
with any predicate of the form `d2 <= theta (gid)` yields a greedy matching
at most as large.  Strong induction on the list length; the interesting case
is a dropped head candidate, whose ground-truth star then contains no
filtered candidate at all (they would have to be strictly closer), reducing
to the star-deletion bounds. -/
theorem greedyR_filter_theta (theta : String → ℚ) :
    ∀ (n : ℕ) (l : List Cand), l.length ≤ n → List.Sorted candLE l →
      (greedyR (l.filter fun c => decide (c.d2 ≤ theta c.gid))).length ≤
        (greedyR l).length := by
  intro n
  induction n with
  | zero =>
    intro l hl _
    have hnil : l = [] := List.length_eq_zero.mp (Nat.le_zero.mp hl)
    subst hnil
    simp
  | succ n ih =>
    intro l hl hsort
    cases l with
    | nil => simp
    | cons c t =>
      have ht : t.length ≤ n := by simpa using hl
      obtain ⟨hhead, htail⟩ := List.sorted_cons.mp hsort
      have hgr : greedyR (c :: t) =
          (c.pid, c.gid) :: greedyR (delP c.pid (delG c.gid t)) := by
        rw [greedyR]
      by_cases hc : c.d2 ≤ theta c.gid
      · have hfc : (c :: t).filter (fun c2 => decide (c2.d2 ≤ theta c2.gid)) =
            c :: t.filter (fun c2 => decide (c2.d2 ≤ theta c2.gid)) := by
          simp [List.filter_cons, hc]
        rw [hfc, hgr, greedyR]
        simp only [List.length_cons, Nat.add_le_add_iff_right]
        have hcomm : delP c.pid (delG c.gid
            (t.filter fun c2 => decide (c2.d2 ≤ theta c2.gid))) =
            (delP c.pid (delG c.gid t)).filter
              (fun c2 => decide (c2.d2 ≤ theta c2.gid)) := by
          rw [delG_filter, delP_filter]
        rw [hcomm]
        refine ih (delP c.pid (delG c.gid t))
          (le_trans (le_trans (delP_length_le _ _) (delG_length_le _ _)) ht) ?_
        exact List.Pairwise.sublist
          (List.Sublist.trans (List.filter_sublist _) (List.filter_sublist _))
          htail
      · have hfc : (c :: t).filter (fun c2 => decide (c2.d2 ≤ theta c2.gid)) =
            t.filter (fun c2 => decide (c2.d2 ≤ theta c2.gid)) := by
          simp [List.filter_cons, hc]
        have hgid : t.filter (fun c2 => decide (c2.d2 ≤ theta c2.gid)) =
            (delG c.gid t).filter (fun c2 => decide (c2.d2 ≤ theta c2.gid)) := by
          rw [delG, List.filter_filter]
          refine List.filter_congr ?_
          intro a ha
          by_cases hag : a.gid = c.gid
          · have h1 : ¬ a.d2 ≤ theta a.gid := by
              intro h2
              apply hc
              calc c.d2 ≤ a.d2 := candLE_d2_le (hhead a ha)
              _ ≤ theta a.gid := h2
              _ = theta c.gid := by rw [hag]
            simp [h1]
          · simp [hag]
        rw [hfc, hgid, hgr]
        have h1 : (greedyR ((delG c.gid t).filter
            (fun c2 => decide (c2.d2 ≤ theta c2.gid)))).length ≤
            (greedyR (delG c.gid t)).length :=
          ih (delG c.gid t) (le_trans (delG_length_le _ _) ht)
            (List.Pairwise.sublist (List.filter_sublist _) htail)
        have h2 := ((greedy_del_bounds (delG c.gid t).length
          (delG c.gid t) le_rfl).2).1 c.pid
        simp only [List.length_cons]
        omega

/-! ### The candidate list at a smaller alpha is a threshold filter -/

theorem mem_pyUpsert {α : Type} {l : List (String × α)} {k : String} {v : α}
    {kv : String × α} (h : kv ∈ pyUpsert l k v) : kv ∈ l ∨ kv = (k, v) := by
  induction l with
  | nil =>
    rw [pyUpsert] at h
    exact Or.inr (List.mem_singleton.mp h)
  | cons p t ih =>
    rcases p with ⟨k2, v2⟩
    rw [pyUpsert] at h
    by_cases hk : k2 = k
    · rw [if_pos hk] at h
      rcases List.mem_cons.mp h with h2 | h2
      · exact Or.inr h2
      · exact Or.inl (List.mem_cons_of_mem _ h2)
    · rw [if_neg hk] at h
      rcases List.mem_cons.mp h with h2 | h2
      · exact Or.inl (h2 ▸ List.mem_cons_self _ _)
      · rcases ih h2 with h3 | h3
        · exact Or.inl (List.mem_cons_of_mem _ h3)
        · exact Or.inr h3

theorem foldlM_buildStep_values {α : Type} (err : String) (f : Bbox → α)
    (Pv : α → Prop) (hf : ∀ b, Pv (f b)) :
    ∀ (nodes : List NodeDict) (acc out : List (String × α)),
      (∀ kv ∈ acc, Pv kv.2) →
      List.foldlM (buildStep err f) acc nodes = .ok out →
      ∀ kv ∈ out, Pv kv.2 := by
  intro nodes
  induction nodes with
  | nil =>
    intro acc out hacc heq
    have : acc = out := by
      have h2 : (Except.ok acc : Except String (List (String × α))) = .ok out := heq
      injection h2
    exact this ▸ hacc
  | cons n t ih =>
    intro acc out hacc heq
    rw [List.foldlM_cons] at heq
    match hni : n.id, hnb : n.bbox with
    | some i, some b =>
      rw [show buildStep err f acc n = .ok (pyUpsert acc i (f b)) from by
        rw [buildStep, hni, hnb]] at heq
      refine ih (pyUpsert acc i (f b)) out ?_ heq
      intro kv hkv
      rcases mem_pyUpsert hkv with h2 | h2
      · exact hacc kv h2
      · rw [h2]; exact hf b
    | some i, none =>
      rw [show buildStep err f acc n = .error err from by
        rw [buildStep, hni, hnb]] at heq
      cases heq
    | none, hh =>
      rw [show buildStep err f acc n = .error err from by
        rw [buildStep, hni]] at heq
      cases heq

theorem foldlM_buildStep_keys_nodup {α : Type} (err : String) (f : Bbox → α) :
    ∀ (nodes : List NodeDict) (acc out : List (String × α)),
      (acc.map Prod.fst).Nodup →
      List.foldlM (buildStep err f) acc nodes = .ok out →
      (out.map Prod.fst).Nodup := by
  intro nodes
  induction nodes with
  | nil =>
    intro acc out hacc heq
    have : acc = out := by
      have h2 : (Except.ok acc : Except String (List (String × α))) = .ok out := heq
      injection h2
    exact this ▸ hacc
  | cons n t ih =>
    intro acc out hacc heq
    rw [List.foldlM_cons] at heq
    match hni : n.id, hnb : n.bbox with
    | some i, some b =>
      rw [show buildStep err f acc n = .ok (pyUpsert acc i (f b)) from by
        rw [buildStep, hni, hnb]] at heq
      exact ih (pyUpsert acc i (f b)) out (pyUpsert_keys_nodup _ _ _ hacc) heq
    | some i, none =>
      rw [show buildStep err f acc n = .error err from by
        rw [buildStep, hni, hnb]] at heq
      cases heq
    | none, hh =>
      rw [show buildStep err f acc n = .error err from by
        rw [buildStep, hni]] at heq
      cases heq

theorem lookup_of_mem_keys_nodup {α : Type} :
    ∀ {l : List (String × α)} {k : String} {v : α},
      (l.map Prod.fst).Nodup → (k, v) ∈ l → l.lookup k = some v := by
  intro l
  induction l with
  | nil => intro k v _ h; simp at h
  | cons p t ih =>
    intro k v hnd hmem
    rcases p with ⟨k2, v2⟩
    simp only [List.map_cons, List.nodup_cons] at hnd
    rcases List.mem_cons.mp hmem with h | h
    · rw [show k = k2 from congrArg Prod.fst h,
        show v = v2 from congrArg Prod.snd h]
      rw [List.lookup, show (k2 == k2) = true from beq_self_eq_true k2]
    · have hne : k ≠ k2 := by
        intro he
        subst he
        exact hnd.1 (List.mem_map_of_mem Prod.fst h)
      rw [List.lookup, show (k == k2) = false from beq_eq_false_iff_ne.mpr hne]
      exact ih hnd.2 h

theorem filterMap_cand_filter (pcenter : ℚ × ℚ) (pid : String)
    (alpha alpha2 : ℚ) (theta : String → ℚ) (h0 : 0 < alpha2)
    (h1 : alpha2 ≤ alpha) :
    ∀ (gts : List (String × ((ℚ × ℚ) × ℚ))),
      (∀ gc ∈ gts, theta gc.1 = alpha2 ^ 2 * gc.2.2) →
      (∀ gc ∈ gts, 0 ≤ gc.2.2) →
      (gts.filterMap fun gc =>
        if dist2 pcenter gc.2.1 ≤ alpha2 ^ 2 * gc.2.2 then
          some (⟨dist2 pcenter gc.2.1, pid, gc.1⟩ : Cand) else none) =
      ((gts.filterMap fun gc =>
        if dist2 pcenter gc.2.1 ≤ alpha ^ 2 * gc.2.2 then
          some (⟨dist2 pcenter gc.2.1, pid, gc.1⟩ : Cand) else none).filter
          fun c => decide (c.d2 ≤ theta c.gid)) := by
  intro gts
  induction gts with
  | nil => intro _ _; rfl
  | cons gc rest ih =>
    intro htheta hnonneg
    have hsq : alpha2 ^ 2 * gc.2.2 ≤ alpha ^ 2 * gc.2.2 := by
      have h2 : alpha2 ^ 2 ≤ alpha ^ 2 := by nlinarith [h0.le]
      exact mul_le_mul_of_nonneg_right h2 (hnonneg gc (by simp))
    have hrest := ih (fun g hg => htheta g (by simp [hg]))
      (fun g hg => hnonneg g (by simp [hg]))
    simp only [List.filterMap_cons]
    by_cases hc2 : dist2 pcenter gc.2.1 ≤ alpha2 ^ 2 * gc.2.2
    · have hc1 : dist2 pcenter gc.2.1 ≤ alpha ^ 2 * gc.2.2 := le_trans hc2 hsq
      rw [if_pos hc2, if_pos hc1]
      simp only [List.filter_cons]
      rw [show (decide ((⟨dist2 pcenter gc.2.1, pid, gc.1⟩ : Cand).d2 ≤
          theta (⟨dist2 pcenter gc.2.1, pid, gc.1⟩ : Cand).gid)) = true from by
        simp only [decide_eq_true_eq]
        rw [htheta gc (by simp)]
        exact hc2]
      rw [hrest]
      simp
    · rw [if_neg hc2]
      by_cases hc1 : dist2 pcenter gc.2.1 ≤ alpha ^ 2 * gc.2.2
      · rw [if_pos hc1]
        simp only [List.filter_cons]
        rw [show (decide ((⟨dist2 pcenter gc.2.1, pid, gc.1⟩ : Cand).d2 ≤
            theta (⟨dist2 pcenter gc.2.1, pid, gc.1⟩ : Cand).gid)) = false from by
          simp only [decide_eq_false_iff_not]
          rw [htheta gc (by simp)]
          exact hc2]
        rw [hrest]
        simp
      · rw [if_neg hc1]
        exact hrest

theorem candidatesOf_filter (preds : List (String × (ℚ × ℚ)))
    (gts : List (String × ((ℚ × ℚ) × ℚ))) (alpha alpha2 : ℚ)
    (theta : String → ℚ) (h0 : 0 < alpha2) (h1 : alpha2 ≤ alpha)
    (htheta : ∀ gc ∈ gts, theta gc.1 = alpha2 ^ 2 * gc.2.2)
    (hnonneg : ∀ gc ∈ gts, 0 ≤ gc.2.2) :
    candidatesOf preds gts alpha2 =
      (candidatesOf preds gts alpha).filter
        fun c => decide (c.d2 ≤ theta c.gid) := by
  unfold candidatesOf
  rw [List.filter_flatMap]
  congr 1
  funext pc
  exact filterMap_cand_filter pc.2 pc.1 alpha alpha2 theta h0 h1 gts
    htheta hnonneg

theorem insertionSort_filter (p : Cand → Bool) (l : List Cand) :
    List.insertionSort candLE (l.filter p) =
      (List.insertionSort candLE l).filter p := by
  have h1 : List.Sorted candLE (List.insertionSort candLE (l.filter p)) :=
    List.sorted_insertionSort candLE _
  have h2 : List.Sorted candLE ((List.insertionSort candLE l).filter p) :=
    List.Pairwise.sublist (List.filter_sublist _)
      (List.sorted_insertionSort candLE l)
  exact List.eq_of_perm_of_sorted
    ((List.perm_insertionSort candLE (l.filter p)).trans
      ((List.perm_insertionSort candLE l).symm.filter p)) h1 h2

/-- C8: for fixed GT and predicted nodes and thresholds
`0 < alpha2 <= alpha`, the alignment computed at `alpha2` has at most as
many pairs as the alignment computed at `alpha`. -/
theorem match_size_monotone_in_alpha (gt_nodes pred_nodes : List NodeDict)
    (alpha alpha2 : ℚ) (h0 : 0 < alpha2) (h1 : alpha2 ≤ alpha)
    (m m2 : List (String × String))
    (hm : match_nodes_center_distance gt_nodes pred_nodes alpha = .ok m)
    (hm2 : match_nodes_center_distance gt_nodes pred_nodes alpha2 = .ok m2) :
    m2.length ≤ m.length := by
  have halpha : 0 < alpha := lt_of_lt_of_le h0 h1
  cases hgi : buildGtInfo gt_nodes with
  | error e => rw [match_eq_error_gt _ _ _ halpha hgi] at hm; cases hm
  | ok gi =>
    cases hpc : buildPredCenters pred_nodes with
    | error e => rw [match_eq_error_pred _ _ _ halpha hgi hpc] at hm; cases hm
    | ok pc =>
      rw [match_eq_greedyR _ _ _ halpha hgi hpc] at hm
      rw [match_eq_greedyR _ _ _ h0 hgi hpc] at hm2
      injection hm with hm
      injection hm2 with hm2
      subst hm
      subst hm2
      have hnd : (gi.map Prod.fst).Nodup :=
        foldlM_buildStep_keys_nodup _ _ gt_nodes [] gi (by simp) hgi
      have hnn : ∀ gc ∈ gi, 0 ≤ gc.2.2 := by
        intro gc hgc
        refine foldlM_buildStep_values "GT nodes must have id and bbox"
          (fun b => (center b, diag2 b)) (fun v => 0 ≤ v.2) ?_ gt_nodes [] gi
          (by simp) hgi gc hgc
        intro b
        unfold diag2
        positivity
      have hth : ∀ gc ∈ gi,
          (fun gid => alpha2 ^ 2 * (((gi.lookup gid).map Prod.snd).getD 0))
            gc.1 = alpha2 ^ 2 * gc.2.2 := by
        intro gc hgc
        have hlk : gi.lookup gc.1 = some gc.2 :=
          lookup_of_mem_keys_nodup hnd hgc
        simp [hlk]
      have hcf := candidatesOf_filter pc gi alpha alpha2
        (fun gid => alpha2 ^ 2 * (((gi.lookup gid).map Prod.snd).getD 0))
        h0 h1 hth hnn
      rw [hcf, insertionSort_filter]
      exact greedyR_filter_theta
        (fun gid => alpha2 ^ 2 * (((gi.lookup gid).map Prod.snd).getD 0))
        (List.insertionSort candLE (candidatesOf pc gi alpha)).length
        (List.insertionSort candLE (candidatesOf pc gi alpha)) le_rfl
        (List.sorted_insertionSort candLE _)

/-- C8 (witness): the monotonicity theorem applied at a single GT box and a
coincident predicted box with `alpha = 1` and `alpha2 = 1/2`; both runs
align `p` to `g`. -/
theorem match_size_monotone_in_alpha_witness :
    ([("p", "g")] : List (String × String)).length ≤
      ([("p", "g")] : List (String × String)).length := by
  have hg : buildGtInfo [⟨some "g", some ⟨0, 0, 2, 2⟩⟩] =
      .ok [("g", ((1, 1), 8))] := by
    norm_num [buildGtInfo, buildNodeMap, List.foldlM, buildStep, pyUpsert,
      center, diag2, ok_bind]
  have hp : buildPredCenters [⟨some "p", some ⟨0, 0, 2, 2⟩⟩] =
      .ok [("p", (1, 1))] := by
    norm_num [buildPredCenters, buildNodeMap, List.foldlM, buildStep,
      pyUpsert, center, ok_bind]
  have heval : ∀ a : ℚ, 0 < a → 0 ≤ a ^ 2 * 8 →
      match_nodes_center_distance [⟨some "g", some ⟨0, 0, 2, 2⟩⟩]
        [⟨some "p", some ⟨0, 0, 2, 2⟩⟩] a = .ok [("p", "g")] := by
    intro a ha ha2
    rw [match_eq_greedyR _ _ _ ha hg hp]
    rw [show candidatesOf [("p", (1, 1))] [("g", ((1, 1), 8))] a =
        [⟨0, "p", "g"⟩] from by
      norm_num [candidatesOf, dist2, List.filterMap_cons, ha2]]
    rw [show List.insertionSort candLE [(⟨0, "p", "g"⟩ : Cand)] =
      [⟨0, "p", "g"⟩] from rfl]
    rw [greedyR]
    rw [show delP "p" (delG "g" ([] : List Cand)) = [] from rfl]
    rw [show greedyR [] = [] from by rw [greedyR]]
  exact match_size_monotone_in_alpha
    [⟨some "g", some ⟨0, 0, 2, 2⟩⟩] [⟨some "p", some ⟨0, 0, 2, 2⟩⟩]
    1 (1 / 2) (by norm_num) (by norm_num) [("p", "g")] [("p", "g")]
    (heval 1 (by norm_num) (by norm_num))
    (heval (1 / 2) (by norm_num) (by norm_num))

/-! ### C1: the matching algorithm against its specification -/

theorem candidatesOf_map (gt_nodes pred_nodes : List (String × Bbox))
    (alpha : ℚ) :
    candidatesOf (pred_nodes.map fun p => (p.1, center p.2))
      (gt_nodes.map fun g => (g.1, (center g.2, diag2 g.2))) alpha =
      specCandidates gt_nodes pred_nodes alpha := by
  unfold candidatesOf specCandidates
  rw [List.flatMap_map]
  congr 1
  funext p
  rw [List.filterMap_map]
  rfl

/-- C1 (counterexample): on a GT list with a duplicated node id (and distinct
bboxes), `match_nodes_center_distance` collapses the two GT nodes into one
dict entry keeping the last bbox and returns the empty alignment, while the
algorithm described by the claim, ranging over all node pairs, matches the
predicted node to the first GT node. -/
theorem match_on_duplicate_gt_ids_differs_from_spec :
    match_nodes_center_distance
        [⟨some "g", some ⟨0, 0, 1, 1⟩⟩, ⟨some "g", some ⟨100, 0, 1, 1⟩⟩]
        [⟨some "p", some ⟨0, 0, 1, 1⟩⟩] 1 = .ok [] ∧
      match_spec [("g", ⟨0, 0, 1, 1⟩), ("g", ⟨100, 0, 1, 1⟩)]
        [("p", ⟨0, 0, 1, 1⟩)] 1 = [("p", "g")] := by
  constructor
  · have hg : buildGtInfo
        [⟨some "g", some ⟨0, 0, 1, 1⟩⟩, ⟨some "g", some ⟨100, 0, 1, 1⟩⟩] =
        .ok [("g", ((201 / 2, 1 / 2), 2))] := by
      norm_num [buildGtInfo, buildNodeMap, List.foldlM, buildStep, pyUpsert,
        center, diag2, ok_bind]
    have hp : buildPredCenters [⟨some "p", some ⟨0, 0, 1, 1⟩⟩] =
        .ok [("p", (1 / 2, 1 / 2))] := by
      norm_num [buildPredCenters, buildNodeMap, List.foldlM, buildStep,
        pyUpsert, center, ok_bind]
    rw [match_eq_greedyR _ _ _ one_pos hg hp]
    rw [show candidatesOf [("p", (1 / 2, 1 / 2))]
        [("g", ((201 / 2, 1 / 2), 2))] 1 = [] from by
      norm_num [candidatesOf, dist2, List.filterMap_cons]]
    rw [show List.insertionSort candLE ([] : List Cand) = [] from rfl]
    rw [show greedyR [] = [] from by rw [greedyR]]
  · have hcand : specCandidates [("g", ⟨0, 0, 1, 1⟩), ("g", ⟨100, 0, 1, 1⟩)]
        [("p", ⟨0, 0, 1, 1⟩)] 1 = [⟨0, "p", "g"⟩] := by
      norm_num [specCandidates, dist2, center, diag2, List.filterMap_cons]
    unfold match_spec
    rw [hcand]
    rw [show List.insertionSort candLE [(⟨0, "p", "g"⟩ : Cand)] =
      [⟨0, "p", "g"⟩] from rfl]
    simp [specGreedy]

/-- C1 (amended): for every GT and predicted node list whose ids are
pairwise distinct within each list (all nodes carrying `id` and `bbox`) and
every `alpha > 0`, `match_nodes_center_distance` returns exactly the
alignment of the specified algorithm: candidates are the node pairs `(p, g)`
with center distance at most `alpha * diag(g)` (GT diagonal), sorted
ascending by `(distance, predicted id, ground-truth id)`, then greedily
accepted when neither id was consumed.  (With duplicate ids the code keeps
only the last bbox per id, which the counterexample shows can differ.) -/
theorem match_eq_spec_algorithm (gt_nodes pred_nodes : List (String × Bbox))
    (alpha : ℚ) (halpha : 0 < alpha) (hgt : (gt_nodes.map Prod.fst).Nodup)
    (hpred : (pred_nodes.map Prod.fst).Nodup) :
    match_nodes_center_distance
        (gt_nodes.map fun p => ⟨some p.1, some p.2⟩)
        (pred_nodes.map fun p => ⟨some p.1, some p.2⟩) alpha =
      .ok (match_spec gt_nodes pred_nodes alpha) := by
  have hg := buildNodeMap_map "GT nodes must have id and bbox"
    (fun b => (center b, diag2 b)) gt_nodes hgt
  have hp := buildNodeMap_map "Pred nodes must have id and bbox"
    center pred_nodes hpred
  rw [match_eq_greedyR _ _ _ halpha hg hp, candidatesOf_map]
  unfold match_spec
  rw [specGreedy_eq_greedyR]

/-- C1 (witness): the amended equivalence at the spec scenario-A inputs
(two well-separated GT boxes, two predictions near them, `alpha = 0.3`),
where both sides evaluate to the alignment `p1 -> g1, p2 -> g2`. -/
theorem match_eq_spec_algorithm_witness :
    match_nodes_center_distance
        [⟨some "g1", some ⟨0, 0, 100, 100⟩⟩, ⟨some "g2", some ⟨200, 0, 100, 100⟩⟩]
        [⟨some "p1", some ⟨10, 10, 80, 80⟩⟩, ⟨some "p2", some ⟨210, 10, 80, 80⟩⟩]
        (3 / 10) =
      .ok (match_spec [("g1", ⟨0, 0, 100, 100⟩), ("g2", ⟨200, 0, 100, 100⟩)]
        [("p1", ⟨10, 10, 80, 80⟩), ("p2", ⟨210, 10, 80, 80⟩)] (3 / 10)) ∧
    match_spec [("g1", ⟨0, 0, 100, 100⟩), ("g2", ⟨200, 0, 100, 100⟩)]
        [("p1", ⟨10, 10, 80, 80⟩), ("p2", ⟨210, 10, 80, 80⟩)] (3 / 10) =
      [("p1", "g1"), ("p2", "g2")] :=
  ⟨match_eq_spec_algorithm
      [("g1", ⟨0, 0, 100, 100⟩), ("g2", ⟨200, 0, 100, 100⟩)]
      [("p1", ⟨10, 10, 80, 80⟩), ("p2", ⟨210, 10, 80, 80⟩)] (3 / 10)
      (by norm_num) (by decide) (by decide),
    by
      have hcand : specCandidates
          [("g1", ⟨0, 0, 100, 100⟩), ("g2", ⟨200, 0, 100, 100⟩)]
          [("p1", ⟨10, 10, 80, 80⟩), ("p2", ⟨210, 10, 80, 80⟩)] (3 / 10) =
          [⟨0, "p1", "g1"⟩, ⟨0, "p2", "g2"⟩] := by
        norm_num [specCandidates, dist2, center, diag2, List.filterMap_cons]
      unfold match_spec
      rw [hcand]
      rw [show List.insertionSort candLE
          [(⟨0, "p1", "g1"⟩ : Cand), ⟨0, "p2", "g2"⟩] =
          [⟨0, "p1", "g1"⟩, ⟨0, "p2", "g2"⟩] from by
        simp only [List.insertionSort, List.orderedInsert]
        rw [if_pos (show candLE ⟨0, "p1", "g1"⟩ ⟨0, "p2", "g2"⟩ from
          Or.inr ⟨rfl, Or.inl (by decide)⟩)]]
      simp [specGreedy]⟩

/-! ### C6, C7: the metrics functions -/

/-- C6: exact match holds iff all four conditions hold: equal node-ID-set
cardinalities, alignment size equal to the number of distinct GT node ids,
the alignment range covering the GT node-ID set exactly, and the projected
edge set equal to the GT edge set; the result is a plain boolean with no
intermediate state. -/
theorem exact_match_iff_four_conditions (gt_nodes : List GNode)
    (gt_edges : List (String × String)) (pred_nodes : List GNode)
    (projected : Finset (String × String))
    (pred_to_gt : List (String × String)) :
    compute_exact_match gt_nodes gt_edges pred_nodes projected pred_to_gt =
        true ↔
      ((pred_nodes.map GNode.id).toFinset.card =
          (gt_nodes.map GNode.id).toFinset.card ∧
        pred_to_gt.length = (gt_nodes.map GNode.id).toFinset.card ∧
        (pred_to_gt.map Prod.snd).toFinset = (gt_nodes.map GNode.id).toFinset ∧
        projected = gt_edges.toFinset) := by
  unfold compute_exact_match edgeSetOf
  simp only [decide_eq_true_eq]
  tauto

/-- C7: direction accuracy is the number of projected edges that are GT
edges divided by the number of projected edges whose undirected counterpart
is a GT edge (projected edges with no undirected GT counterpart count in
neither), and it is 0 when that denominator is 0 (floats do not appear in
the model; the source returns the float 0.0 rather than NaN or raising). -/
theorem direction_accuracy_ratio (gt_edges : List (String × String))
    (projected : Finset (String × String)) :
    compute_direction_accuracy gt_edges projected =
      (((projected.filter fun ab => ab ∈ gt_edges.toFinset).card : ℚ) /
        ((projected.filter fun ab =>
          ab ∈ gt_edges.toFinset ∨ (ab.2, ab.1) ∈ gt_edges.toFinset).card : ℚ)) ∧
    ((projected.filter fun ab =>
        ab ∈ gt_edges.toFinset ∨ (ab.2, ab.1) ∈ gt_edges.toFinset).card = 0 →
      compute_direction_accuracy gt_edges projected = 0) := by
  constructor
  · unfold compute_direction_accuracy edgeSetOf
    by_cases h : 0 < (projected.filter fun ab =>
        ab ∈ gt_edges.toFinset ∨ (ab.2, ab.1) ∈ gt_edges.toFinset).card
    · rw [if_pos h]
    · rw [if_neg h]
      rw [show (projected.filter fun ab =>
          ab ∈ gt_edges.toFinset ∨ (ab.2, ab.1) ∈ gt_edges.toFinset).card = 0
        from by omega]
      simp
  · intro h
    unfold compute_direction_accuracy edgeSetOf
    rw [if_neg (by omega)]

/-- C7 (witness): direction accuracy at a projected set with no undirected
GT counterpart evaluates to 0. -/
theorem direction_accuracy_ratio_witness :
    compute_direction_accuracy [("a", "b")] {("c", "d")} = 0 :=
  (direction_accuracy_ratio [("a", "b")] {("c", "d")}).2 (by decide)

/-! ### C9: edge projection -/

/-- C9 (counterexample): the `MatchingError` raised for an edge missing an
endpoint key carries one fixed message, identical for different offending
edges, so the error does not identify the offending edge. -/
theorem project_error_does_not_identify_edge :
    project_pred_edges_to_gt [⟨none, some "a"⟩] [] =
        .error "Edges must have from and to" ∧
      project_pred_edges_to_gt [⟨some "b", none⟩] [] =
        .error "Edges must have from and to" :=
  ⟨rfl, rfl⟩

/-- C9 (amended): when some predicted edge lacks `from` or `to`, projection
raises `MatchingError` with the fixed message (which does not name the
offending edge); when every edge has both keys, projection returns the set
of projected GT pairs of the edges with both endpoints in the alignment,
dropping the others silently and collapsing duplicates. -/
theorem project_edges_behavior (pred_edges : List EdgeDict)
    (pred_to_gt : List (String × String)) :
    ((∃ e ∈ pred_edges, e.fromId = none ∨ e.toId = none) →
      project_pred_edges_to_gt pred_edges pred_to_gt =
        .error "Edges must have from and to") ∧
    ((∀ e ∈ pred_edges, e.fromId.isSome ∧ e.toId.isSome) →
      project_pred_edges_to_gt pred_edges pred_to_gt =
        .ok (projectSpec pred_edges pred_to_gt)) := by
  induction pred_edges with
  | nil =>
    constructor
    · intro h; simp at h
    · intro _; rfl
  | cons e rest ih =>
    constructor
    · intro ⟨e0, he0, hbad⟩
      rw [project_pred_edges_to_gt]
      match hf : e.fromId, ht : e.toId with
      | some pf, some pt =>
        rcases List.mem_cons.mp he0 with h | h
        · subst h
          rcases hbad with hbad | hbad
          · rw [hf] at hbad; cases hbad
          · rw [ht] at hbad; cases hbad
        · rw [ih.1 ⟨e0, h, hbad⟩]
          rfl
      | some pf, none => rfl
      | none, hh => rfl
    · intro hwf
      obtain ⟨pf, hf⟩ := Option.isSome_iff_exists.mp (hwf e (by simp)).1
      obtain ⟨pt, ht⟩ := Option.isSome_iff_exists.mp (hwf e (by simp)).2
      have hrest := ih.2 fun e2 he2 => hwf e2 (by simp [he2])
      have hL : project_pred_edges_to_gt (e :: rest) pred_to_gt =
          (project_pred_edges_to_gt rest pred_to_gt >>= fun out =>
            match pred_to_gt.lookup pf, pred_to_gt.lookup pt with
            | some gf, some gtv => .ok (insert (gf, gtv) out)
            | _, _ => .ok out) := by
        rw [project_pred_edges_to_gt, hf, ht]
      have hspec : projectSpec (e :: rest) pred_to_gt =
          (match pred_to_gt.lookup pf, pred_to_gt.lookup pt with
            | some gf, some gtv =>
              insert (gf, gtv) (projectSpec rest pred_to_gt)
            | _, _ => projectSpec rest pred_to_gt) := by
        rw [projectSpec, List.filterMap_cons, hf, ht]
        simp only [Option.some_bind]
        cases hl1 : pred_to_gt.lookup pf with
        | none => rfl
        | some gf =>
          cases hl2 : pred_to_gt.lookup pt with
          | none => rfl
          | some gtv => exact List.toFinset_cons
      rw [hL, hrest, ok_bind, hspec]
      cases hl1 : pred_to_gt.lookup pf with
      | none => rfl
      | some gf =>
        cases hl2 : pred_to_gt.lookup pt with
        | none => rfl
        | some gtv => rfl

/-- C9 (witness): the amended theorem applied at a two-edge input whose
second edge has an unmatched endpoint: only the first edge projects, into
the single GT pair. -/
theorem project_edges_behavior_witness :
    project_pred_edges_to_gt
        [⟨some "p1", some "p2"⟩, ⟨some "p1", some "px"⟩]
        [("p1", "g1"), ("p2", "g2")] =
      .ok (projectSpec [⟨some "p1", some "p2"⟩, ⟨some "p1", some "px"⟩]
        [("p1", "g1"), ("p2", "g2")]) ∧
    projectSpec [⟨some "p1", some "p2"⟩, ⟨some "p1", some "px"⟩]
        [("p1", "g1"), ("p2", "g2")] = {("g1", "g2")} :=
  ⟨(project_edges_behavior
      [⟨some "p1", some "p2"⟩, ⟨some "p1", some "px"⟩]
      [("p1", "g1"), ("p2", "g2")]).2 (by decide),
    by decide⟩

/-! ### C3: legacy from/to edges -/

/-- C3 (counterexample): a per-sample graph whose single edge uses only the
legacy from/to key pair is rejected by `validate_graph_json` (it demands a
non-empty string under `source`), so dataset graph validation does not
accept the legacy keys. -/
theorem validate_graph_rejects_from_to_edge :
    validate_graph_json
        (.obj [("nodes", .arr []),
          ("edges", .arr [.obj [("from", .s "a"), ("to", .s "b")]])])
        "s1" "graphs/s1.json" =
      .error (msgEdgeMissingEndpoint 0 "source" "s1" "graphs/s1.json") :=
  rfl

/-- C3 (amended): the benchmark runner normalizes edges through
`_edge_to_dict`, which accepts both the canonical source/target pair and the
legacy from/to pair and maps both to the same internal from/to dict (the
internal canonical form is from/to, not source/target); dataset graph
validation, by contrast, requires source/target and rejects a graph whose
edge carries only from/to. -/
theorem edge_to_dict_accepts_both_key_pairs (vs vt : JV)
    (sample_id path : String) :
    edge_to_dict [("from", vs), ("to", vt)] = [("from", vs), ("to", vt)] ∧
    edge_to_dict [("source", vs), ("target", vt)] =
      [("from", vs), ("to", vt)] ∧
    validate_graph_json
        (.obj [("nodes", .arr []),
          ("edges", .arr [.obj [("from", vs), ("to", vt)]])]) sample_id path =
      .error (msgEdgeMissingEndpoint 0 "source" sample_id path) := by
  refine ⟨?_, ?_, ?_⟩
  · rw [edge_to_dict, if_pos (by simp)]
    rfl
  · rw [edge_to_dict, if_neg (by simp), if_pos (by simp)]
    rfl
  · rfl

/-! ### C5: the shape of the result record -/

/-- C5 (counterexample): the serializer stamps records with the frozen
`SCHEMA_VERSION` constant, which is the string 1, not 1.1 as the claim
states. -/
theorem benchmark_record_version_is_1_not_1_1 :
    lookupJ (write_benchmark_record ⟨3, ⟨⟨1, 1, 1⟩, ⟨1, 1, 1⟩, 1, 1, none⟩⟩
        "flowlearn" "test" "oracle" []) "schema_version" = some (.s "1") ∧
      ("1" : String) ≠ "1.1" :=
  ⟨rfl, by decide⟩

/-- C5 (amended): every record the serializer produces from a runner result
carries schema version 1 and exactly the top-level keys `schema_version,
dataset, split, predictor, num_samples, metrics, run`, where `metrics` has
exactly the eight required subkeys, plus `runtime_mean_s` exactly when the
aggregate carries a runtime. -/
theorem benchmark_record_shape (r : RunnerBenchmarkResult)
    (dataset split predictor : String) (run : List (String × JV)) :
    (write_benchmark_record r dataset split predictor run).map Prod.fst =
      ["schema_version", "dataset", "split", "predictor", "num_samples",
        "metrics", "run"] ∧
    (metricsBlock r.aggregate).map Prod.fst =
      (["node_precision", "node_recall", "node_f1", "edge_precision",
        "edge_recall", "edge_f1", "direction_accuracy", "exact_match_rate"] ++
        (match r.aggregate.runtime_mean_s with
          | some _ => ["runtime_mean_s"]
          | none => [])) ∧
    lookupJ (write_benchmark_record r dataset split predictor run)
      "schema_version" = some (.s "1") := by
  refine ⟨rfl, ?_, rfl⟩
  cases hr : r.aggregate.runtime_mean_s <;>
    simp [metricsBlock, hr]

/-! ### C4: schema-version checking at dataset load -/

/-- C4: a dataset root whose `dataset.json` declares the unsupported
`schema_version` 9.9 (with one image and one matching graph file) is loaded
successfully by `load_dataset`, which reads the version with a default and
never consults the allow-list; the allow-list lives only in
`validate_dataset_metadata`, which `load_dataset` never calls, and which
rejects the same metadata.  This matches the repository tests
(`test_dataset_unsupported_schema_version_raises` expects `DatasetError`)
and the specification, against the code. -/
theorem load_dataset_accepts_unsupported_schema_version :
    load_dataset
        ⟨"ds", some (.obj [("schema_version", .s "9.9"), ("name", .s "ds"),
          ("version", .s "0.1")]), true, true, ["0001.png"], ["0001.json"]⟩ =
      .ok { root := "ds"
            metadata :=
              { schema_version := "9.9", name := "ds", version := "0.1"
                splits := [("all", ["0001"])], extra := [] }
            samples := [⟨"0001", "images/0001.png", "graphs/0001.json", "all"⟩] } ∧
    validate_dataset_metadata [("schema_version", .s "9.9"), ("name", .s "ds"),
        ("version", .s "0.1")] "ds" =
      .error (msgUnsupportedSchemaVersion "9.9") := by
  constructor
  · have hsort : Finset.sort (· ≤ ·) (list_image_ids
        ⟨"ds", some (.obj [("schema_version", .s "9.9"), ("name", .s "ds"),
          ("version", .s "0.1")]), true, true, ["0001.png"], ["0001.json"]⟩) =
        ["0001"] := by
      rw [show list_image_ids
          ⟨"ds", some (.obj [("schema_version", .s "9.9"), ("name", .s "ds"),
            ("version", .s "0.1")]), true, true, ["0001.png"], ["0001.json"]⟩ =
          {"0001"} from rfl]
      exact Finset.sort_singleton _ _
    rw [load_dataset]
    simp only [hsort]
    rfl
  · rfl

end Diagram2Code
